import Mathlib

/-!
# Verification of the url-classifier-exceptions-ui client-side data pipeline

Shallow embedding of the dashboard's core data pipeline:

* the filter-expression match function
  (src/filter-expression/filter-expression.ts),
* the version-filter pass over the record list and the refresh cycle
  (src/app.ts),
* the bug-metadata resolver (src/app.ts, fetchBugMetadata),
* host extraction from match patterns and the top-resource aggregation
  (src/exceptions-table/utils.ts, src/exceptions-table/top-exceptions-table.ts).

Network fetches and the third-party JEXL evaluator are modelled as explicit
inputs (fetch outcomes as Except values, the evaluator as a function
parameter), so the deterministic in-memory transforms can be reasoned about
directly.
-/

namespace UCE

/-! ## Data model (src/types.ts, src/url-classifier-exception-list-types.ts) -/

/-- One entry of the URL classifier exception list, as fetched from Remote
Settings. The schema declares bugIds mandatory, but the fetched JSON may lack
it (the app spot-checks for exactly that), so the field is modelled as
optional: none is a missing/null bugIds field in the raw record. -/
structure ExceptionListEntry where
  id : Option String := none
  bugIds : Option (List String) := none
  category : String := "baseline"
  urlPattern : String := ""
  filter_expression : Option String := none
  classifierFeatures : List String := []
  topLevelUrlPattern : Option String := none
  isPrivateBrowsingOnly : Option Bool := none
  filterContentBlockingCategories : Option (List String) := none
  last_modified : Int := 0
deriving DecidableEq, Repr

/-- Metadata about a bug from Bugzilla (src/types.ts, BugMeta). -/
structure BugMeta where
  id : String
  isOpen : Bool
  summary : String
deriving DecidableEq, Repr

/-- A map of bug IDs to their metadata (src/types.ts, BugMetaMap): a JS
object used as a string-keyed dictionary. -/
def BugMetaMap : Type := String → Option BugMeta

/-- The empty BugMetaMap (the JS object literal with no keys). -/
def emptyBugMetaMap : BugMetaMap := fun _ => none

/-- Setting one key of a BugMetaMap (JS property assignment, overwriting). -/
def mapSet (m : BugMetaMap) (k : String) (v : BugMeta) : BugMetaMap :=
  fun k' => if k' = k then some v else m k'

/-! ## Version comparator

The versionCompare transform delegates to the mozCompare function of the
external addons-moz-compare npm package, which is not part of this
repository. -/

/-- Modelled from the spec: split a character list at the dots (the
semantics of splitting a version string on "."). -/
def splitAtDots : List Char → List (List Char)
  | [] => [[]]
  | c :: cs =>
    if c = '.' then [] :: splitAtDots cs
    else
      match splitAtDots cs with
      | [] => [[c]]
      | seg :: segs => (c :: seg) :: segs

/-- Modelled from the spec: the numeric value of one segment (its leading
run of digits, 0 when there is none). -/
def segmentValue (seg : List Char) : Nat :=
  (seg.takeWhile Char.isDigit).foldl (fun n c => 10 * n + (c.toNat - 48)) 0

/-- Modelled from the spec: split a dotted version string into its numeric
segments. -/
def segments (s : String) : List Nat :=
  (splitAtDots s.toList).map segmentValue

/-- Modelled from the spec: whether every segment of a list is zero. -/
def allZeros : List Nat → Bool
  | [] => true
  | a :: as => decide (a = 0) && allZeros as

/-- Modelled from the spec: compare two segment lists left-to-right, padding
the shorter list with zeros (an exhausted left list compares as zeros, so it
ties exactly when every remaining right segment is zero). -/
def cmpSegLists : List Nat → List Nat → Int
  | [], bs => if allZeros bs then 0 else -1
  | a :: as, [] => if 0 < a then 1 else cmpSegLists as []
  | a :: as, b :: bs =>
      if a < b then -1 else if b < a then 1 else cmpSegLists as bs

/-- Modelled from the spec: the Version Comparator (the mozCompare function
of the external addons-moz-compare package, absent from this repository).
Spec §4.1: compare(a, b) ∈ {-1, 0, 1}, dotted version strings compared
segment by segment left-to-right, numeric segments comparing as integers
(not lexicographically), missing trailing segments treated as zero,
malformed input given a best-effort ordering. -/
def mozCompare (a b : String) : Int :=
  cmpSegLists (segments a) (segments b)

/-! ## Expression evaluator (src/filter-expression/filter-expression.ts)

The JEXL engine itself is the third-party mozjexl package; it is modelled as
an abstract evaluator parameter producing either a value or an error. -/

/-- A JEXL runtime value, as far as the pipeline observes it: the match
function only ever compares the result against the boolean true. -/
inductive JexlValue where
  | bool : Bool → JexlValue
  | num : Int → JexlValue
  | str : String → JexlValue
  | null : JexlValue
deriving DecidableEq, Repr

/-- The evaluation context built by versionNumberMatchesFilterExpression:
the object literal with env.version. -/
structure JexlEnv where
  version : String
deriving DecidableEq, Repr

structure JexlContext where
  env : JexlEnv
deriving DecidableEq, Repr

/-- An abstract JEXL evaluator: jexl.eval either resolves with a value or
rejects with an error. -/
def JexlEvaluator : Type := String → JexlContext → Except String JexlValue

/-- versionNumberMatchesFilterExpression
(src/filter-expression/filter-expression.ts:39-64). An absent or empty
expression matches unconditionally; otherwise the expression is evaluated
against the context with env.version and only the exact boolean true counts
as a match. An evaluator rejection is not caught here: it propagates to the
caller as the Except error. -/
def versionNumberMatchesFilterExpression (jexlEval : JexlEvaluator)
    (version : String) (filterExpression : Option String) :
    Except String Bool :=
  match filterExpression with
  | none => .ok true
  | some s =>
    if s.length = 0 then .ok true
    else
      match jexlEval s { env := { version := version } } with
      | .ok result => .ok (decide (result = JexlValue.bool true))
      | .error e => .error e

/-! ## Version-filter pass (src/app.ts, getRecordsMatchingFirefoxVersion) -/

/-- The Promise.all scatter/gather of getRecordsMatchingFirefoxVersion
(src/app.ts:397-413): each record maps to (some record) when its expression
matches and to none otherwise; a rejected evaluation rejects the join. The
join is deterministic, so it is modelled as left-to-right sequencing. -/
def evalRecords (jexlEval : JexlEvaluator) (firefoxVersion : String) :
    List ExceptionListEntry → Except String (List (Option ExceptionListEntry))
  | [] => .ok []
  | record :: rest =>
    match versionNumberMatchesFilterExpression jexlEval firefoxVersion
        record.filter_expression with
    | .error e => .error e
    | .ok isMatch =>
      match evalRecords jexlEval firefoxVersion rest with
      | .error e => .error e
      | .ok tail => .ok ((if isMatch then some record else none) :: tail)

/-- getRecordsMatchingFirefoxVersion (src/app.ts:397-413): gather the
per-record results in input order, then drop the nulls. -/
def getRecordsMatchingFirefoxVersion (jexlEval : JexlEvaluator)
    (records : List ExceptionListEntry) (firefoxVersion : String) :
    Except String (List ExceptionListEntry) :=
  match evalRecords jexlEval firefoxVersion records with
  | .error e => .error e
  | .ok filteredRecords => .ok (filteredRecords.filterMap id)

/-! ## Host extraction (src/exceptions-table/utils.ts, getHostFromUrlPattern)

The source matches the URL pattern against the regular expression
/:\/\/(?:\*\.)?([^/*]+)/ and returns the first capture group, or null when
the pattern does not match. The regex is embedded by its backtracking
semantics: scan for the leftmost position where the whole pattern matches;
at a position, require the literal "://", optionally (greedily, with
backtracking) the literal "*.", then a maximal nonempty run of characters
other than '/' and '*'. -/

/-- The capture group [^/*]+ at the start of t: the maximal run of
characters that are neither '/' nor '*', required nonempty. -/
def hostCapture (t : List Char) : Option (List Char) :=
  let cap := t.takeWhile (fun c => !(c = '/' || c = '*'))
  if cap.isEmpty then none else some cap

/-- Try to match the whole regex starting exactly at s: "://" then the
optional "*." (preferred, with fallback when the capture then fails), then
the capture group. -/
def hostMatchAt (s : List Char) : Option (List Char) :=
  match s with
  | ':' :: '/' :: '/' :: t =>
    match t with
    | '*' :: '.' :: u => (hostCapture u).orElse (fun _ => hostCapture t)
    | _ => hostCapture t
  | _ => none

/-- Leftmost-match scan of the regex over the subject string. -/
def findHostMatch : List Char → Option (List Char)
  | [] => none
  | c :: cs => (hostMatchAt (c :: cs)).orElse (fun _ => findHostMatch cs)

/-- getHostFromUrlPattern (src/exceptions-table/utils.ts:23-32): the first
capture group of the regex match, or null when there is no match. -/
def getHostFromUrlPattern (urlPattern : String) : Option String :=
  (findHostMatch urlPattern.toList).map (fun cs => String.mk cs)

/-! ## Top-resource aggregation
(src/exceptions-table/top-exceptions-table.ts, topResources getter) -/

/-- One row of the Top Resources table. topLevelSites, bugIds and entries
model JS Sets by insertion-ordered duplicate-free lists. -/
structure TopResource where
  host : String
  topLevelSites : List String
  bugIds : List String
  entries : List ExceptionListEntry
deriving DecidableEq, Repr

/-- JS Set.add: append the element unless it is already present. -/
def insertNew {α : Type} [DecidableEq α] (l : List α) (x : α) : List α :=
  if x ∈ l then l else l ++ [x]

/-- JS truthiness of entry.topLevelUrlPattern: present and nonempty. -/
def hasTopLevelUrlPattern (e : ExceptionListEntry) : Bool :=
  match e.topLevelUrlPattern with
  | none => false
  | some s => decide (s ≠ "")

/-- The per-entry mutation of an existing TopResource group (the loop body
of the topResources getter, after the group has been looked up or created):
add the extracted top-level site when extraction succeeds, add the entry's
bug ids, add the entry. In the source entry.bugIds is dereferenced
directly; an entry reaching the table satisfies the schema's mandatory
bugIds, and a missing field is read as the empty list here. -/
def addEntryToResource (r : TopResource) (e : ExceptionListEntry) :
    TopResource :=
  let r1 :=
    match getHostFromUrlPattern (e.topLevelUrlPattern.getD "") with
    | some topLevelSite =>
        { r with topLevelSites := insertNew r.topLevelSites topLevelSite }
    | none => r
  { r1 with
    bugIds := (e.bugIds.getD []).foldl insertNew r1.bugIds,
    entries := insertNew r1.entries e }

/-- The Map keyed by resource host, as an insertion-ordered list of groups
with pairwise distinct hosts: update the group with the given host in
place, or append a fresh group at the end (JS Map insertion order). -/
def updateResource (m : List TopResource) (h : String)
    (e : ExceptionListEntry) : List TopResource :=
  match m with
  | [] =>
    [addEntryToResource
      { host := h, topLevelSites := [], bugIds := [], entries := [] } e]
  | r :: rs =>
    if r.host = h then addEntryToResource r e :: rs
    else r :: updateResource rs h e

/-- One iteration of the topResources loop: skip entries without a (truthy)
topLevelUrlPattern, skip entries whose resource host cannot be extracted,
otherwise fold the entry into its host's group. -/
def topResourcesStep (m : List TopResource) (e : ExceptionListEntry) :
    List TopResource :=
  if hasTopLevelUrlPattern e then
    match getHostFromUrlPattern e.urlPattern with
    | none => m
    | some h => updateResource m h e
  else m

/-- The grouping loop of the topResources getter over all entries. -/
def topResourcesMap (entries : List ExceptionListEntry) :
    List TopResource :=
  entries.foldl topResourcesStep []

/-- Stable insertion of x into a list sorted descending by key: x goes
after every element whose key is at least key x (Array.prototype.sort is
stable and the comparator orders by descending key). -/
def insertDescBy {α : Type} (key : α → Int) (x : α) :
    List α → List α
  | [] => [x]
  | y :: ys =>
    if key x ≤ key y then y :: insertDescBy key x ys else x :: y :: ys

/-- Stable sort, descending by an integer key (models the stable
Array.prototype.sort with comparator (a, b) => key b - key a). -/
def sortDescBy {α : Type} (key : α → Int) (l : List α) : List α :=
  l.foldl (fun acc x => insertDescBy key x acc) []

/-- The default of the minTopSiteCount property of top-exceptions-table. -/
def defaultMinTopSiteCount : Nat := 2

/-- The topResources getter
(src/exceptions-table/top-exceptions-table.ts:110-147): group the entries
by resource host, drop groups below the minTopSiteCount threshold of
distinct top-level sites, sort descending by that count. -/
def topResources (entries : List ExceptionListEntry)
    (minTopSiteCount : Nat) : List TopResource :=
  sortDescBy (fun r => (r.topLevelSites.length : Int))
    ((topResourcesMap entries).filter
      (fun r => decide (minTopSiteCount ≤ r.topLevelSites.length)))

/-! ## Bug metadata resolver (src/app.ts, fetchBugMetadata) -/

/-- One element of the bugs array of the Bugzilla REST response. -/
structure BugzillaBug where
  id : String
  is_open : Bool
  summary : String
deriving DecidableEq, Repr

/-- The metadata the response carries for a given id: the last entry of the
bugs array with that id wins (later JS property assignments overwrite
earlier ones). -/
def responseMeta (bugs : List BugzillaBug) (bid : String) :
    Option BugMeta :=
  match bugs with
  | [] => none
  | b :: bs =>
    (responseMeta bs bid).orElse
      (fun _ => if b.id = bid then some ⟨b.id, b.is_open, b.summary⟩
        else none)

/-- The placeholder entry used for requested ids absent from the response. -/
def placeholderBugMeta (bid : String) : BugMeta :=
  ⟨bid, false, "Unavailable"⟩

/-- fetchBugMetadata (src/app.ts:77-123). The network is an explicit input:
the response is the outcome of the single batched GET, and the returned
Bool records whether that call was made at all. An empty id set returns the
empty map without the call; a failed fetch or an empty/absent bugs array is
an error; otherwise the response rows are keyed by id and every requested
id missing from the map is filled with the placeholder. -/
def fetchBugMetadata (bugIds : List String)
    (response : Except String (List BugzillaBug)) :
    Except String BugMetaMap × Bool :=
  if bugIds.length = 0 then
    (.ok emptyBugMetaMap, false)
  else
    match response with
    | .error e => (.error e, true)
    | .ok bugs =>
      if bugs.length = 0 then
        (.error "Unexpected or outdated format.", true)
      else
        let fromResponse := bugs.foldl
          (fun m b => mapSet m b.id ⟨b.id, b.is_open, b.summary⟩)
          emptyBugMetaMap
        let withPlaceholders := bugIds.foldl
          (fun m bid =>
            match m bid with
            | some _ => m
            | none => mapSet m bid (placeholderBugMeta bid))
          fromResponse
        (.ok withPlaceholders, true)

/-! ## The refresh cycle (src/app.ts, App.updateRecords and helpers)

The component state and the refresh transition. The remote fetches and the
JEXL engine are explicit inputs of the transition; the state fields are the
reactive properties the claims are about. -/

inductive FirefoxChannel where
  | nightly
  | beta
  | release
deriving DecidableEq, Repr

structure FirefoxVersions where
  nightly : String
  beta : String
  release : String
deriving DecidableEq, Repr

/-- Indexing this.firefoxVersions by the selected channel. -/
def FirefoxVersions.get (vs : FirefoxVersions) :
    FirefoxChannel → String
  | .nightly => vs.nightly
  | .beta => vs.beta
  | .release => vs.release

/-- The reactive state of the app-root component that the data pipeline
reads and writes (src/app.ts:173-203). The Remote Settings environment
selection is not modelled: the fetch it parameterizes is an explicit input
of the transition. -/
structure AppState where
  records : List ExceptionListEntry
  displayRecords : List ExceptionListEntry
  bugMeta : BugMetaMap
  error : Option String
  firefoxVersions : Option FirefoxVersions
  filterFirefoxChannel : Option FirefoxChannel

/-- The outcomes of the external interactions of one refresh cycle: the
records fetch, the bug-metadata fetch, and the JEXL engine. -/
structure RefreshInputs where
  recordsFetch : Except String (List ExceptionListEntry)
  bugFetch : Except String (List BugzillaBug)
  jexlEval : JexlEvaluator

/-- The format spot-check of updateRecords (src/app.ts:344-347): a
non-empty fetched list whose FIRST record lacks bugIds. -/
def badFormat (recs : List ExceptionListEntry) : Bool :=
  match recs with
  | [] => false
  | r :: _ => decide (r.bugIds = none)

/-- The error message thrown by the spot-check. -/
def formatErrorMessage : String := "Unexpected or outdated format."

/-- updateFilteredRecords (src/app.ts:371-381): with no channel filter or
no version info the display set is the full record list; otherwise it is
the version-filter pass over this.records, whose failure is returned as the
cycle error and leaves displayRecords untouched. -/
def updateFilteredRecords (jexlEval : JexlEvaluator) (st : AppState) :
    AppState × Option String :=
  match st.filterFirefoxChannel with
  | none => ({ st with displayRecords := st.records }, none)
  | some ch =>
    match st.firefoxVersions with
    | none => ({ st with displayRecords := st.records }, none)
    | some vs =>
      match getRecordsMatchingFirefoxVersion jexlEval st.records
          (vs.get ch) with
      | .ok matching => ({ st with displayRecords := matching }, none)
      | .error e => (st, some e)

/-- new Set(...): deduplicate preserving first occurrence. -/
def dedup {α : Type} [DecidableEq α] (l : List α) : List α :=
  l.foldl insertNew []

/-- The bug ids referenced by a record list
(this.records.flatMap((record) => record.bugIds || [])). -/
def allBugIds (records : List ExceptionListEntry) : List String :=
  records.flatMap (fun r => r.bugIds.getD [])

/-- The state right after the fetched records were stored and sorted most
recently modified first (the this.records mutations of src/app.ts:342-350
on the non-throwing path). -/
def sortedRecordsState (st : AppState)
    (recs : List ExceptionListEntry) : AppState :=
  { st with records := sortDescBy (fun r => r.last_modified) recs }

/-- updateRecords (src/app.ts:340-364), as a state transition returning the
updated state and the error the call throws, if any. Mutation order follows
the source: this.records is assigned BEFORE the format spot-check, the sort
happens after the check, then the filtered-records update and the
bug-metadata fetch both run to completion (Promise.all does not cancel the
other task when one rejects) and the first error wins. -/
def updateRecords (inp : RefreshInputs) (st : AppState) :
    AppState × Option String :=
  match inp.recordsFetch with
  | .error e => (st, some e)
  | .ok recs =>
    if badFormat recs then
      ({ st with records := recs }, some formatErrorMessage)
    else
      let filtered :=
        updateFilteredRecords inp.jexlEval (sortedRecordsState st recs)
      let bugResult :=
        (fetchBugMetadata (dedup (allBugIds filtered.1.records))
          inp.bugFetch).1
      let st4 := match bugResult with
        | .ok bugMeta => { filtered.1 with bugMeta := bugMeta }
        | .error _ => filtered.1
      let cycleError := match filtered.2 with
        | some e => some e
        | none => match bugResult with
          | .ok _ => none
          | .error e => some e
      (st4, cycleError)

/-- The try/catch around updateRecords in init and handleRSEnvChange
(src/app.ts:300-322, 437-447): a thrown error lands in this.error, success
clears it. -/
def applyRefreshCycle (inp : RefreshInputs) (st : AppState) : AppState :=
  match updateRecords inp st with
  | (st', none) => { st' with error := none }
  | (st', some e) => { st' with error := some e }

/-! ## Specification-side helper predicates -/

/-- Whether a match result is a successful exact-true match. -/
def isOkTrue : Except String Bool → Bool
  | .ok true => true
  | _ => false

/-- Whether an Except value is the error case. -/
def exceptIsError {ε α : Type} : Except ε α → Bool
  | .error _ => true
  | .ok _ => false

/-- Looking one key up in a resolver result: none when the call failed. -/
def exceptMapLookup (x : Except String BugMetaMap) (k : String) :
    Option BugMeta :=
  match x with
  | .ok m => m k
  | .error _ => none

/-- The resource host an entry contributes under: defined exactly when the
entry has a truthy topLevelUrlPattern and its urlPattern yields a host. -/
def entryHost (e : ExceptionListEntry) : Option String :=
  if hasTopLevelUrlPattern e then getHostFromUrlPattern e.urlPattern
  else none

/-- The sublist of a record list contributing to a given resource host, in
input order. -/
def contributors (l : List ExceptionListEntry) (h : String) :
    List ExceptionListEntry :=
  l.filter (fun e => decide (entryHost e = some h))

/-- A freshly created group for a host, before any entry is folded in. -/
def freshResource (h : String) : TopResource :=
  { host := h, topLevelSites := [], bugIds := [], entries := [] }

/-- The group a host accumulates from a list of contributing entries. -/
def aggregate (h : String) (cs : List ExceptionListEntry) : TopResource :=
  cs.foldl addEntryToResource (freshResource h)

/-- Invariant of the grouping loop: the accumulated groups have pairwise
distinct hosts, each group is exactly the aggregate of its host's
contributors among the processed entries, and every host with a contributor
has a group. -/
def MapInv (l : List ExceptionListEntry) (m : List TopResource) : Prop :=
  (m.map TopResource.host).Nodup ∧
  (∀ r ∈ m, contributors l r.host ≠ [] ∧
    r = aggregate r.host (contributors l r.host)) ∧
  (∀ h, contributors l h ≠ [] → ∃ r ∈ m, r.host = h)

/-! ## Concrete instances used by the closed witness and counterexample
theorems -/

/-- A concrete JEXL engine behaviour: the expression "boom" fails to
evaluate, "no" evaluates to false, anything else to true. -/
def exEval : JexlEvaluator := fun s _ =>
  if s = "boom" then .error "parse"
  else if s = "no" then .ok (JexlValue.bool false)
  else .ok (JexlValue.bool true)

def exEntryPlain : ExceptionListEntry :=
  { id := some "plain", bugIds := some ["1"], last_modified := 5 }

def exEntryPlain2 : ExceptionListEntry :=
  { id := some "plain2", bugIds := some ["2"], last_modified := 9 }

def exBoomRecord : ExceptionListEntry :=
  { id := some "boom-record", bugIds := some ["3"],
    filter_expression := some "boom" }

def exNoRecord : ExceptionListEntry :=
  { id := some "no-record", bugIds := some ["4"],
    filter_expression := some "no" }

def exC1Records : List ExceptionListEntry := [exEntryPlain, exBoomRecord]

def exC3Records : List ExceptionListEntry := [exEntryPlain, exNoRecord]

def exTop1 : ExceptionListEntry :=
  { id := some "top1", bugIds := some ["10"],
    urlPattern := "https://tracker.example/*",
    topLevelUrlPattern := some "https://a.com/*" }

def exTop2 : ExceptionListEntry :=
  { id := some "top2", bugIds := some ["11"],
    urlPattern := "*://*.tracker.example/*",
    topLevelUrlPattern := some "https://b.com/*" }

/-- A per-site entry whose topLevelUrlPattern does not match the
match-pattern grammar, while its resource pattern does. -/
def exSiteFail : ExceptionListEntry :=
  { id := some "site-fail", bugIds := some ["12"],
    urlPattern := "https://tracker.example/*",
    topLevelUrlPattern := some "nohost" }

def exGlobal : ExceptionListEntry :=
  { id := some "global", bugIds := some ["13"],
    urlPattern := "https://other.example/*" }

def exTopEntries : List ExceptionListEntry :=
  [exTop1, exTop2, exSiteFail, exGlobal]

/-- A per-site entry whose resource urlPattern has no extractable host. -/
def exSkipEntry : ExceptionListEntry :=
  { id := some "skip", bugIds := some ["14"], urlPattern := "nohosturl",
    topLevelUrlPattern := some "https://a.com/*" }

/-- A fetched record whose bugIds field is missing. -/
def exBadRec : ExceptionListEntry :=
  { id := some "bad", urlPattern := "x" }

def exStOld : AppState :=
  { records := [exEntryPlain], displayRecords := [exEntryPlain],
    bugMeta := emptyBugMetaMap, error := none, firefoxVersions := none,
    filterFirefoxChannel := none }

def exInpNetFail : RefreshInputs :=
  { recordsFetch := .error "network down", bugFetch := .ok [],
    jexlEval := exEval }

def exInpBadFormat : RefreshInputs :=
  { recordsFetch := .ok [exBadRec], bugFetch := .ok [], jexlEval := exEval }

def exInpLaterBad : RefreshInputs :=
  { recordsFetch := .ok [exEntryPlain, exBadRec],
    bugFetch := .ok [⟨"1", true, "summary one"⟩], jexlEval := exEval }

def exInpFresh : RefreshInputs :=
  { recordsFetch := .ok [exEntryPlain, exEntryPlain2],
    bugFetch := .ok [⟨"1", true, "summary one"⟩], jexlEval := exEval }

def exBugIdsRequested : List String := ["1", "2"]

def exBugResponse : List BugzillaBug := [⟨"1", true, "summary one"⟩]

/-- The aggregate the tracker.example host accumulates in exTopEntries. -/
def exTrackerResource : TopResource :=
  aggregate "tracker.example" (contributors exTopEntries "tracker.example")

/-! # Theorems -/

/-! ## C9: the version comparator -/

lemma cmpSegLists_nil_right (as : List Nat) :
    cmpSegLists as [] = if allZeros as then 0 else 1 := by
  induction as with
  | nil => simp [cmpSegLists, allZeros]
  | cons a as ih =>
    by_cases ha : 0 < a
    · have : ¬ a = 0 := Nat.pos_iff_ne_zero.mp ha
      simp [cmpSegLists, allZeros, ha, this]
    · have ha0 : a = 0 := Nat.eq_zero_of_not_pos ha
      simp [cmpSegLists, allZeros, ha, ha0, ih]

lemma cmpSegLists_antisymm (as : List Nat) :
    ∀ bs, cmpSegLists as bs = - cmpSegLists bs as := by
  induction as with
  | nil =>
    intro bs
    rw [cmpSegLists_nil_right]
    show cmpSegLists [] bs = _
    rw [cmpSegLists]
    split <;> simp
  | cons a as ih =>
    intro bs
    cases bs with
    | nil =>
      rw [cmpSegLists_nil_right]
      show _ = - cmpSegLists [] (a :: as)
      rw [cmpSegLists]
      split <;> simp
    | cons b bs =>
      show cmpSegLists (a :: as) (b :: bs) = - cmpSegLists (b :: bs) (a :: as)
      rw [cmpSegLists, cmpSegLists]
      rcases Nat.lt_trichotomy a b with h | h | h
      · simp [h, Nat.lt_asymm h]
      · subst h
        simp [Nat.lt_irrefl, ih bs]
      · simp [h, Nat.lt_asymm h]

lemma cmpSegLists_self (as : List Nat) : cmpSegLists as as = 0 := by
  induction as with
  | nil => simp [cmpSegLists, allZeros]
  | cons a as ih => simp [cmpSegLists, Nat.lt_irrefl, ih]

lemma cmpSegLists_pad_zero (as : List Nat) :
    cmpSegLists (as ++ [0]) as = 0 := by
  induction as with
  | nil => simp [cmpSegLists, allZeros]
  | cons a as ih => simpa [cmpSegLists, Nat.lt_irrefl] using ih

/-- C9: the version comparison used by the versionCompare transform is
antisymmetric (compare(a,b) = -compare(b,a)), reflexive (compare(a,a) = 0),
compares numeric segments as integers rather than lexicographically
(compare("78.0","9.0") > 0), and treats missing trailing segments as zero
(a trailing zero segment never changes the ordering; concretely
compare("1.0","1") = 0). -/
theorem c9_versionCompare_algebra :
    (∀ a b : String, mozCompare a b = - mozCompare b a) ∧
    (∀ a : String, mozCompare a a = 0) ∧
    mozCompare "78.0" "9.0" > 0 ∧
    (∀ sa : List Nat, cmpSegLists (sa ++ [0]) sa = 0) ∧
    mozCompare "1.0" "1" = 0 := by
  refine ⟨?_, ?_, ?_, ?_, ?_⟩
  · intro a b
    exact cmpSegLists_antisymm (segments a) (segments b)
  · intro a
    exact cmpSegLists_self (segments a)
  · decide
  · exact cmpSegLists_pad_zero
  · decide

/-! ## C2: the match function -/

lemma string_eq_empty_of_length_eq_zero {s : String}
    (h : s.length = 0) : s = "" := by
  cases s with
  | mk data =>
    have hd : data.length = 0 := h
    have : data = [] := List.length_eq_zero.mp hd
    subst this
    rfl

/-- C2: versionNumberMatchesFilterExpression returns true for an absent or
empty expression; for a non-empty expression whose evaluation against the
context with env.version yields a value, it returns true exactly for the
boolean value true and false for every other value, and it yields a match
exactly when the evaluation yields the boolean true. -/
theorem c2_match_only_exact_true (jexlEval : JexlEvaluator)
    (version : String) (filterExpression : Option String) :
    ((filterExpression = none ∨ filterExpression = some "") →
      versionNumberMatchesFilterExpression jexlEval version filterExpression
        = .ok true) ∧
    (∀ s, filterExpression = some s → s ≠ "" →
      (∀ val, jexlEval s { env := { version := version } } = .ok val →
        versionNumberMatchesFilterExpression jexlEval version
            filterExpression = .ok (decide (val = JexlValue.bool true))) ∧
      (versionNumberMatchesFilterExpression jexlEval version
          filterExpression = .ok true
        ↔ jexlEval s { env := { version := version } }
            = .ok (JexlValue.bool true))) := by
  constructor
  · rintro (rfl | rfl)
    · rfl
    · rfl
  · intro s hfe hs
    subst hfe
    have hlen : ¬ s.length = 0 := fun h0 =>
      hs (string_eq_empty_of_length_eq_zero h0)
    constructor
    · intro val hval
      simp [versionNumberMatchesFilterExpression, hlen, hval]
    · simp only [versionNumberMatchesFilterExpression, hlen, if_false]
      cases hev : jexlEval s { env := { version := version } } with
      | error e => simp
      | ok val =>
        simp only [Except.ok.injEq]
        constructor
        · intro hdec
          have : val = JexlValue.bool true := of_decide_eq_true hdec
          rw [this]
        · intro hval
          cases hval
          simp

/-- C2 witness: at the concrete engine exEval, a non-empty expression
evaluating to the boolean true matches. -/
theorem c2_match_only_exact_true_witness :
    versionNumberMatchesFilterExpression exEval "100" (some "yes")
      = .ok true := by
  have h := (c2_match_only_exact_true exEval "100" (some "yes")).2 "yes"
    rfl (by decide)
  exact h.2.mpr rfl

/-! ## C1: evaluation failure and the version-filter pass -/

lemma evalRecords_error_of_mem (jexlEval : JexlEvaluator) (version : String)
    {records : List ExceptionListEntry} {r : ExceptionListEntry} {e : String}
    (hr : r ∈ records)
    (hf : versionNumberMatchesFilterExpression jexlEval version
      r.filter_expression = .error e) :
    ∃ ef, evalRecords jexlEval version records = .error ef := by
  induction records with
  | nil => cases hr
  | cons a rest ih =>
    rcases List.mem_cons.mp hr with rfl | hmem
    · exact ⟨e, by simp [evalRecords, hf]⟩
    · cases hv : versionNumberMatchesFilterExpression jexlEval version
          a.filter_expression with
      | error e2 => exact ⟨e2, by simp [evalRecords, hv]⟩
      | ok b =>
        obtain ⟨ef, hef⟩ := ih hmem
        exact ⟨ef, by simp [evalRecords, hv, hef]⟩

/-- C1 counterexample: a single record whose expression fails to evaluate
makes the whole version-filtering pass fail — the pass returns the error
instead of a record list excluding the offending record, refuting the claim
that the failure is never re-raised to the caller of the pass. -/
theorem c1_counterexample :
    versionNumberMatchesFilterExpression exEval "100"
        exBoomRecord.filter_expression = .error "parse" ∧
    exBoomRecord ∈ exC1Records ∧
    getRecordsMatchingFirefoxVersion exEval exC1Records "100"
      = .error "parse" := by
  refine ⟨rfl, by decide, rfl⟩

/-- C1 amended: when the evaluation of one record's filter expression
fails, the version-filtering pass over the whole list fails as well — the
rejection propagates out of the Promise.all join, no result list is
produced, and the failure is re-raised to the caller of the pass. -/
theorem c1_eval_failure_aborts_pass (jexlEval : JexlEvaluator)
    (records : List ExceptionListEntry) (version : String)
    (r : ExceptionListEntry) (e : String) (hr : r ∈ records)
    (hf : versionNumberMatchesFilterExpression jexlEval version
      r.filter_expression = .error e) :
    exceptIsError
      (getRecordsMatchingFirefoxVersion jexlEval records version) = true := by
  obtain ⟨ef, hef⟩ := evalRecords_error_of_mem jexlEval version hr hf
  simp [getRecordsMatchingFirefoxVersion, hef, exceptIsError]

/-- C1 witness: the amended theorem applied at the concrete engine and
record list of the counterexample. -/
theorem c1_eval_failure_aborts_pass_witness :
    exceptIsError
      (getRecordsMatchingFirefoxVersion exEval exC1Records "100") = true :=
  c1_eval_failure_aborts_pass exEval exC1Records "100" exBoomRecord "parse"
    (by decide) rfl

/-! ## C3: the successful pass is the order-preserving filter -/

lemma getRecords_ok_eq (jexlEval : JexlEvaluator) (version : String) :
    ∀ (records out : List ExceptionListEntry),
      getRecordsMatchingFirefoxVersion jexlEval records version = .ok out →
      out = records.filter (fun r =>
        isOkTrue (versionNumberMatchesFilterExpression jexlEval version
          r.filter_expression)) := by
  intro records
  induction records with
  | nil =>
    intro out h
    simp only [getRecordsMatchingFirefoxVersion, evalRecords,
      Except.ok.injEq] at h
    simp [← h]
  | cons a rest ih =>
    intro out h
    simp only [getRecordsMatchingFirefoxVersion, evalRecords] at h
    cases hv : versionNumberMatchesFilterExpression jexlEval version
        a.filter_expression with
    | error e => rw [hv] at h; cases h
    | ok b =>
      rw [hv] at h
      cases he : evalRecords jexlEval version rest with
      | error e => rw [he] at h; cases h
      | ok tail =>
        rw [he] at h
        simp only [Except.ok.injEq] at h
        have hrest : getRecordsMatchingFirefoxVersion jexlEval rest version
            = .ok (tail.filterMap id) := by
          simp [getRecordsMatchingFirefoxVersion, he]
        have ihr := ih (tail.filterMap id) hrest
        cases b with
        | true =>
          have hpa : isOkTrue (versionNumberMatchesFilterExpression jexlEval
              version a.filter_expression) = true := by rw [hv]; rfl
          rw [← h, List.filter_cons, hpa]
          simp [ihr]
        | false =>
          have hpa : isOkTrue (versionNumberMatchesFilterExpression jexlEval
              version a.filter_expression) = false := by rw [hv]; rfl
          rw [← h, List.filter_cons, hpa]
          simp [ihr]

/-- C3: whenever the version-filter pass completes with a result, the
result is exactly the input filtered to the records whose expression (if
present) matches the version — an order-preserving subsequence of the
input, in particular no longer than the input. -/
theorem c3_pass_is_ordered_filter (jexlEval : JexlEvaluator)
    (records out : List ExceptionListEntry) (version : String)
    (h : getRecordsMatchingFirefoxVersion jexlEval records version
      = .ok out) :
    out = records.filter (fun r =>
      isOkTrue (versionNumberMatchesFilterExpression jexlEval version
        r.filter_expression)) ∧
    out.Sublist records ∧ out.length ≤ records.length := by
  have hout := getRecords_ok_eq jexlEval version records out h
  refine ⟨hout, ?_, ?_⟩
  · rw [hout]; exact List.filter_sublist records
  · rw [hout]; exact (List.filter_sublist records).length_le

/-- C3 witness: the concrete pass keeps the matching record, drops the
non-matching one, and preserves order. -/
theorem c3_pass_is_ordered_filter_witness :
    [exEntryPlain] = exC3Records.filter (fun r =>
      isOkTrue (versionNumberMatchesFilterExpression exEval "100"
        r.filter_expression)) ∧
    List.Sublist [exEntryPlain] exC3Records ∧
    [exEntryPlain].length ≤ exC3Records.length :=
  c3_pass_is_ordered_filter exEval exC3Records [exEntryPlain] "100" rfl

/-! ## C4: the bug metadata resolver -/

lemma foldl_mapSet_lookup (bugs : List BugzillaBug) (bid : String) :
    ∀ m0 : BugMetaMap,
      (bugs.foldl (fun m b => mapSet m b.id ⟨b.id, b.is_open, b.summary⟩)
          m0) bid
        = match responseMeta bugs bid with
          | some v => some v
          | none => m0 bid := by
  induction bugs with
  | nil => intro m0; simp [responseMeta]
  | cons b bs ih =>
    intro m0
    simp only [List.foldl_cons]
    rw [ih]
    show _ = match responseMeta (b :: bs) bid with
      | some v => some v
      | none => m0 bid
    rw [responseMeta]
    cases hbs : responseMeta bs bid with
    | some v => simp [hbs, Option.orElse]
    | none =>
      simp only [hbs, Option.orElse]
      by_cases hid : b.id = bid
      · subst hid
        simp [mapSet]
      · have hid2 : ¬ bid = b.id := fun hc => hid hc.symm
        simp [mapSet, hid, hid2]

lemma foldl_placeholder_lookup (ids : List String) (bid : String) :
    ∀ m0 : BugMetaMap,
      (ids.foldl (fun m i =>
          match m i with
          | some _ => m
          | none => mapSet m i (placeholderBugMeta i)) m0) bid
        = match m0 bid with
          | some v => some v
          | none =>
            if bid ∈ ids then some (placeholderBugMeta bid) else none := by
  induction ids with
  | nil =>
    intro m0
    simp only [List.foldl_nil, List.not_mem_nil, if_false]
    cases m0 bid <;> rfl
  | cons i is ih =>
    intro m0
    simp only [List.foldl_cons]
    rw [ih]
    cases hm0i : m0 i with
    | some w =>
      simp only [hm0i]
      cases hm0 : m0 bid with
      | some v => simp [hm0]
      | none =>
        have hne : ¬ bid = i := by
          intro hc; subst hc; rw [hm0i] at hm0; cases hm0
        simp [hm0, List.mem_cons, hne]
    | none =>
      simp only [hm0i]
      by_cases hbi : bid = i
      · subst hbi
        simp [mapSet, hm0i, List.mem_cons]
      · cases hm0 : m0 bid with
        | some v => simp [mapSet, hbi, hm0]
        | none => simp [mapSet, hbi, hm0, List.mem_cons]

/-- C4: the bug-metadata resolution of fetchBugMetadata. An empty requested
set returns the empty mapping without making the network call; whenever a
mapping is returned, every requested id is a key of it — an id present in
the response carries the response's metadata (last occurrence winning) and
an id absent from the response carries the placeholder entry with
isOpen = false and summary = "Unavailable". -/
theorem c4_every_requested_id_mapped (bugIds : List String)
    (response : Except String (List BugzillaBug)) :
    (bugIds = [] →
      fetchBugMetadata bugIds response = (.ok emptyBugMetaMap, false)) ∧
    (∀ m, (fetchBugMetadata bugIds response).1 = .ok m →
      ∀ bid ∈ bugIds,
        m bid = some ((responseMeta (response.toOption.getD []) bid).getD
          (placeholderBugMeta bid))) := by
  constructor
  · intro h
    subst h
    rfl
  · intro m hm bid hbid
    have hne : ¬ bugIds.length = 0 := by
      intro h0
      rw [List.length_eq_zero.mp h0] at hbid
      cases hbid
    rw [fetchBugMetadata.eq_def, if_neg hne] at hm
    cases response with
    | error e => cases hm
    | ok bugs =>
      simp only at hm
      by_cases hbe : bugs.length = 0
      · rw [if_pos hbe] at hm; cases hm
      · rw [if_neg hbe] at hm
        simp only [Except.ok.injEq] at hm
        rw [← hm]
        rw [foldl_placeholder_lookup, foldl_mapSet_lookup]
        show _ = some ((responseMeta bugs bid).getD (placeholderBugMeta bid))
        cases hr : responseMeta bugs bid with
        | some v => simp [emptyBugMetaMap]
        | none => simp [emptyBugMetaMap, hbid]

/-- C4 witness: requesting ids "1" and "2" against a response carrying only
bug "1" maps "1" to the response metadata and "2" to the placeholder. -/
theorem c4_every_requested_id_mapped_witness :
    exceptMapLookup (fetchBugMetadata exBugIdsRequested
        (.ok exBugResponse)).1 "1" = some ⟨"1", true, "summary one"⟩ ∧
    exceptMapLookup (fetchBugMetadata exBugIdsRequested
        (.ok exBugResponse)).1 "2" = some ⟨"2", false, "Unavailable"⟩ := by
  cases hm : (fetchBugMetadata exBugIdsRequested (.ok exBugResponse)).1 with
  | error e => cases hm
  | ok m =>
    have h1 := (c4_every_requested_id_mapped exBugIdsRequested
      (.ok exBugResponse)).2 m hm "1" (by decide)
    have h2 := (c4_every_requested_id_mapped exBugIdsRequested
      (.ok exBugResponse)).2 m hm "2" (by decide)
    exact ⟨h1.trans (by decide), h2.trans (by decide)⟩

/-! ## The stable descending sort -/

lemma insertDescBy_perm {α : Type} (key : α → Int) (x : α) (l : List α) :
    (insertDescBy key x l).Perm (x :: l) := by
  induction l with
  | nil => exact List.Perm.refl _
  | cons y ys ih =>
    rw [insertDescBy]
    by_cases h : key x ≤ key y
    · rw [if_pos h]
      exact (ih.cons y).trans (List.Perm.swap x y ys)
    · rw [if_neg h]

lemma foldl_insertDescBy_perm {α : Type} (key : α → Int) :
    ∀ (l acc : List α),
      (l.foldl (fun a x => insertDescBy key x a) acc).Perm (acc ++ l) := by
  intro l
  induction l with
  | nil => intro acc; simp
  | cons x xs ih =>
    intro acc
    simp only [List.foldl_cons]
    refine ((ih _).trans ?_)
    refine (((insertDescBy_perm key x acc).append_right xs).trans ?_)
    exact List.perm_middle.symm

lemma sortDescBy_perm {α : Type} (key : α → Int) (l : List α) :
    (sortDescBy key l).Perm l := by
  simpa using foldl_insertDescBy_perm key l []

lemma insertDescBy_pairwise {α : Type} (key : α → Int) (x : α)
    {l : List α} (h : l.Pairwise (fun a b => key b ≤ key a)) :
    (insertDescBy key x l).Pairwise (fun a b => key b ≤ key a) := by
  induction l with
  | nil => simp [insertDescBy]
  | cons y ys ih =>
    rw [insertDescBy]
    rcases List.pairwise_cons.mp h with ⟨hy, hys⟩
    by_cases hxy : key x ≤ key y
    · rw [if_pos hxy]
      refine List.pairwise_cons.mpr ⟨?_, ih hys⟩
      intro z hz
      have hz2 := (insertDescBy_perm key x ys).mem_iff.mp hz
      rcases List.mem_cons.mp hz2 with rfl | hzys
      · exact hxy
      · exact hy z hzys
    · rw [if_neg hxy]
      push_neg at hxy
      refine List.pairwise_cons.mpr ⟨?_, h⟩
      intro z hz
      rcases List.mem_cons.mp hz with rfl | hzys
      · exact le_of_lt hxy
      · exact le_trans (hy z hzys) (le_of_lt hxy)

lemma foldl_insertDescBy_pairwise {α : Type} (key : α → Int) :
    ∀ (l acc : List α),
      acc.Pairwise (fun a b => key b ≤ key a) →
      (l.foldl (fun a x => insertDescBy key x a) acc).Pairwise
        (fun a b => key b ≤ key a) := by
  intro l
  induction l with
  | nil => intro acc h; simpa using h
  | cons x xs ih =>
    intro acc h
    simp only [List.foldl_cons]
    exact ih _ (insertDescBy_pairwise key x h)

lemma sortDescBy_pairwise {α : Type} (key : α → Int) (l : List α) :
    (sortDescBy key l).Pairwise (fun a b => key b ≤ key a) :=
  foldl_insertDescBy_pairwise key l [] (by simp)

/-! ## C6 and C7: the refresh cycle on failure -/

lemma updateFilteredRecords_fields (jexlEval : JexlEvaluator)
    (st : AppState) :
    (updateFilteredRecords jexlEval st).1.records = st.records ∧
    (updateFilteredRecords jexlEval st).1.bugMeta = st.bugMeta ∧
    (∀ e, (updateFilteredRecords jexlEval st).2 = some e →
      (updateFilteredRecords jexlEval st).1 = st) := by
  unfold updateFilteredRecords
  split
  · exact ⟨rfl, rfl, fun e he => by cases he⟩
  · split
    · exact ⟨rfl, rfl, fun e he => by cases he⟩
    · split
      · exact ⟨rfl, rfl, fun e he => by cases he⟩
      · exact ⟨rfl, rfl, fun e2 _ => rfl⟩

/-- C6 corrected: what a failing refresh cycle really preserves. A records
fetch failure leaves the whole state unchanged. A format-mismatch failure
leaves displayRecords and bugMeta unchanged but has already overwritten the
stored record collection with the newly fetched records. Past the
spot-check, a failing bug-metadata fetch leaves bugMeta unchanged and a
failing filter evaluation leaves displayRecords unchanged, while the record
collection has already been replaced. -/
theorem c6_failure_preservation (inp : RefreshInputs) (st : AppState) :
    (∀ e, inp.recordsFetch = .error e →
      updateRecords inp st = (st, some e)) ∧
    (∀ recs, inp.recordsFetch = .ok recs → badFormat recs = true →
      updateRecords inp st
        = ({ st with records := recs }, some formatErrorMessage)) ∧
    (∀ recs, inp.recordsFetch = .ok recs → badFormat recs = false →
      (∀ e, (fetchBugMetadata
          (dedup (allBugIds (sortedRecordsState st recs).records))
          inp.bugFetch).1 = .error e →
        (updateRecords inp st).1.bugMeta = st.bugMeta) ∧
      (∀ e, (updateFilteredRecords inp.jexlEval
          (sortedRecordsState st recs)).2 = some e →
        (updateRecords inp st).1.displayRecords = st.displayRecords)) := by
  refine ⟨?_, ?_, ?_⟩
  · intro e he
    rw [updateRecords.eq_def, he]
  · intro recs hrecs hbad
    rw [updateRecords.eq_def, hrecs]
    simp only [hbad, if_true]
  · intro recs hrecs hbad
    have hrecseq : (updateFilteredRecords inp.jexlEval
        (sortedRecordsState st recs)).1.records
        = (sortedRecordsState st recs).records :=
      (updateFilteredRecords_fields inp.jexlEval _).1
    constructor
    · intro e hbug
      rw [updateRecords.eq_def, hrecs]
      simp only [hbad, Bool.false_eq_true, if_false]
      rw [hrecseq, hbug]
      exact (updateFilteredRecords_fields inp.jexlEval _).2.1.trans rfl
    · intro e hfil
      rw [updateRecords.eq_def, hrecs]
      simp only [hbad, Bool.false_eq_true, if_false]
      have h1 : (updateFilteredRecords inp.jexlEval
          (sortedRecordsState st recs)).1 = sortedRecordsState st recs :=
        (updateFilteredRecords_fields inp.jexlEval _).2.2 e hfil
      rw [hrecseq]
      cases hbug : (fetchBugMetadata
          (dedup (allBugIds (sortedRecordsState st recs).records))
          inp.bugFetch).1 with
      | ok bm => simp only [h1]; rfl
      | error e2 => simp only [h1]; rfl

/-- C6 counterexample: a refresh cycle that fails the format spot-check has
nevertheless already overwritten the stored record collection, refuting the
claim that a failed cycle never partially overwrites the displayed data. -/
theorem c6_counterexample :
    (updateRecords exInpBadFormat exStOld).2 = some formatErrorMessage ∧
    (updateRecords exInpBadFormat exStOld).1.records ≠ exStOld.records := by
  exact ⟨rfl, by decide⟩

/-- C6 witness: the amended theorem applied to a concrete failing records
fetch, where the whole state is indeed left unchanged. -/
theorem c6_failure_preservation_witness :
    updateRecords exInpNetFail exStOld = (exStOld, some "network down") :=
  (c6_failure_preservation exInpNetFail exStOld).1 "network down" rfl

/-- C7 corrected: the format spot-check fires exactly when the FIRST record
of a non-empty fetched set lacks bugIds, in which case the whole cycle
aborts with the format-mismatch error; records after the first are never
inspected by the spot-check. -/
theorem c7_spot_check_first_record_only (inp : RefreshInputs)
    (st : AppState) (recs : List ExceptionListEntry)
    (h : inp.recordsFetch = .ok recs) :
    (badFormat recs = true ↔ ∃ r rs, recs = r :: rs ∧ r.bugIds = none) ∧
    (badFormat recs = true →
      updateRecords inp st
        = ({ st with records := recs }, some formatErrorMessage)) := by
  constructor
  · cases recs with
    | nil => simp [badFormat]
    | cons r rs =>
      simp only [badFormat, decide_eq_true_eq]
      constructor
      · intro hb
        exact ⟨r, rs, rfl, hb⟩
      · rintro ⟨r2, rs2, heq, hb⟩
        cases heq
        exact hb
  · intro hbad
    rw [updateRecords.eq_def, h]
    simp only [hbad, if_true]

/-- C7 counterexample: a fetched set whose SECOND record lacks bugIds does
not signal a format mismatch — the refresh cycle completes without error,
refuting the claim that any record missing bugIds aborts the fetch. -/
theorem c7_counterexample :
    exBadRec ∈ [exEntryPlain, exBadRec] ∧ exBadRec.bugIds = none ∧
    exInpLaterBad.recordsFetch = .ok [exEntryPlain, exBadRec] ∧
    (updateRecords exInpLaterBad exStOld).2 = none := by
  refine ⟨by decide, rfl, rfl, rfl⟩

/-- C7 witness: the amended theorem applied to a concrete fetched set whose
first record lacks bugIds: the cycle aborts with the format error. -/
theorem c7_spot_check_first_record_only_witness :
    updateRecords exInpBadFormat exStOld
      = ({ exStOld with records := [exBadRec] }, some formatErrorMessage) :=
  (c7_spot_check_first_record_only exInpBadFormat exStOld [exBadRec]
    rfl).2 rfl

/-! ## C10: ordering of the stored records after a successful refresh -/

lemma updateRecords_good_eq (inp : RefreshInputs) (st : AppState)
    (recs : List ExceptionListEntry) (hok : inp.recordsFetch = .ok recs)
    (hbad : badFormat recs = false) :
    updateRecords inp st =
      (let filtered :=
        updateFilteredRecords inp.jexlEval (sortedRecordsState st recs)
       let bugResult :=
        (fetchBugMetadata (dedup (allBugIds filtered.1.records))
          inp.bugFetch).1
       (match bugResult with
        | .ok bugMeta => { filtered.1 with bugMeta := bugMeta }
        | .error _ => filtered.1,
        match filtered.2 with
        | some e => some e
        | none =>
          match bugResult with
          | .ok _ => none
          | .error e => some e)) := by
  rw [updateRecords.eq_def, hok]
  simp only [hbad, Bool.false_eq_true, if_false]

lemma updateFilteredRecords_display_char (jexlEval : JexlEvaluator)
    (st : AppState)
    (h : (updateFilteredRecords jexlEval st).2 = none) :
    (updateFilteredRecords jexlEval st).1.displayRecords
      = (updateFilteredRecords jexlEval st).1.records ∨
    ∃ ch vs, st.filterFirefoxChannel = some ch ∧
      st.firefoxVersions = some vs ∧
      getRecordsMatchingFirefoxVersion jexlEval
        (updateFilteredRecords jexlEval st).1.records (vs.get ch)
        = .ok (updateFilteredRecords jexlEval st).1.displayRecords := by
  cases hch : st.filterFirefoxChannel with
  | none =>
    left
    simp [updateFilteredRecords, hch]
  | some ch =>
    cases hvs : st.firefoxVersions with
    | none =>
      left
      simp [updateFilteredRecords, hch, hvs]
    | some vs =>
      cases hg : getRecordsMatchingFirefoxVersion jexlEval st.records
          (vs.get ch) with
      | ok matching =>
        right
        refine ⟨ch, vs, rfl, rfl, ?_⟩
        simp [updateFilteredRecords, hch, hvs, hg]
      | error e =>
        exfalso
        simp [updateFilteredRecords, hch, hvs, hg] at h

/-- C10: after a refresh cycle that completes without error, the stored
record collection is the fetched list stably sorted in non-increasing order
of last_modified, and the display record set is either that sorted list
itself (no channel filter selected) or the output of the version-filter
pass run over that sorted list. -/
theorem c10_sorted_records_feed_views (inp : RefreshInputs) (st : AppState)
    (recs : List ExceptionListEntry) (hok : inp.recordsFetch = .ok recs)
    (hsucc : (updateRecords inp st).2 = none) :
    (updateRecords inp st).1.records
      = sortDescBy (fun r => r.last_modified) recs ∧
    (updateRecords inp st).1.records.Pairwise
      (fun a b => b.last_modified ≤ a.last_modified) ∧
    ((updateRecords inp st).1.displayRecords
        = (updateRecords inp st).1.records ∨
      ∃ ch vs, st.filterFirefoxChannel = some ch ∧
        st.firefoxVersions = some vs ∧
        getRecordsMatchingFirefoxVersion inp.jexlEval
          (updateRecords inp st).1.records (vs.get ch)
          = .ok (updateRecords inp st).1.displayRecords) := by
  have hbad : badFormat recs = false := by
    cases hb : badFormat recs
    · rfl
    · exfalso
      rw [updateRecords.eq_def, hok] at hsucc
      simp only [hb, if_true] at hsucc
      cases hsucc
  rw [updateRecords_good_eq inp st recs hok hbad] at hsucc ⊢
  simp only at hsucc ⊢
  have hfields := updateFilteredRecords_fields inp.jexlEval
    (sortedRecordsState st recs)
  cases hfil : (updateFilteredRecords inp.jexlEval
      (sortedRecordsState st recs)).2 with
  | some e =>
    rw [hfil] at hsucc
    simp at hsucc
  | none =>
    rw [hfil] at hsucc
    cases hbug : (fetchBugMetadata
        (dedup (allBugIds (updateFilteredRecords inp.jexlEval
          (sortedRecordsState st recs)).1.records)) inp.bugFetch).1 with
    | error e =>
      rw [hbug] at hsucc
      simp at hsucc
    | ok bm =>
      refine ⟨hfields.1, ?_, ?_⟩
      · show ((updateFilteredRecords inp.jexlEval
            (sortedRecordsState st recs)).1.records).Pairwise
          (fun a b => b.last_modified ≤ a.last_modified)
        rw [hfields.1]
        exact sortDescBy_pairwise (fun r => r.last_modified) recs
      · show (updateFilteredRecords inp.jexlEval
            (sortedRecordsState st recs)).1.displayRecords
            = (updateFilteredRecords inp.jexlEval
              (sortedRecordsState st recs)).1.records ∨
          ∃ ch vs, st.filterFirefoxChannel = some ch ∧
            st.firefoxVersions = some vs ∧
            getRecordsMatchingFirefoxVersion inp.jexlEval
              (updateFilteredRecords inp.jexlEval
                (sortedRecordsState st recs)).1.records (vs.get ch)
              = .ok (updateFilteredRecords inp.jexlEval
                (sortedRecordsState st recs)).1.displayRecords
        exact updateFilteredRecords_display_char inp.jexlEval
          (sortedRecordsState st recs) hfil


/-- C10 witness: a concrete successful refresh with an unsorted fetch leaves
the stored records in non-increasing last_modified order. -/
theorem c10_sorted_records_feed_views_witness :
    (updateRecords exInpFresh exStOld).1.records.Pairwise
      (fun a b => b.last_modified ≤ a.last_modified) :=
  (c10_sorted_records_feed_views exInpFresh exStOld
    [exEntryPlain, exEntryPlain2] rfl rfl).2.1

/-! ## C8: host-extraction failure in the aggregation -/

lemma mem_insertNew {α : Type} [DecidableEq α] {l : List α} {x y : α} :
    x ∈ insertNew l y ↔ x ∈ l ∨ x = y := by
  unfold insertNew
  by_cases hy : y ∈ l
  · simp only [if_pos hy]
    constructor
    · exact Or.inl
    · rintro (h | rfl)
      · exact h
      · exact hy
  · simp [if_neg hy]

lemma mem_foldl_insertNew {α : Type} [DecidableEq α] {x : α} :
    ∀ (l acc : List α), (x ∈ acc ∨ x ∈ l) → x ∈ l.foldl insertNew acc := by
  intro l
  induction l with
  | nil =>
    intro acc h
    rcases h with h | h
    · exact h
    · cases h
  | cons y ys ih =>
    intro acc h
    simp only [List.foldl_cons]
    refine ih _ ?_
    rcases h with h | h
    · exact Or.inl (mem_insertNew.mpr (Or.inl h))
    · rcases List.mem_cons.mp h with rfl | hys
      · exact Or.inl (mem_insertNew.mpr (Or.inr rfl))
      · exact Or.inr hys

lemma topResourcesStep_skip (m : List TopResource)
    (e : ExceptionListEntry)
    (h : getHostFromUrlPattern e.urlPattern = none) :
    topResourcesStep m e = m := by
  by_cases ht : hasTopLevelUrlPattern e
  · simp [topResourcesStep, ht, h]
  · simp [topResourcesStep, ht]

/-- C8 corrected: a record whose resource urlPattern yields no host is
skipped entirely — the whole aggregation is as if the record were absent,
and the computation still completes. A record whose topLevelUrlPattern
yields no host is NOT skipped: it still contributes its entry and its bug
ids to its resource's group; only the top-level-site set is left
untouched. -/
theorem c8_host_extraction_failure (l1 l2 : List ExceptionListEntry)
    (e : ExceptionListEntry) (minTopSiteCount : Nat) :
    (getHostFromUrlPattern e.urlPattern = none →
      topResources (l1 ++ e :: l2) minTopSiteCount
        = topResources (l1 ++ l2) minTopSiteCount) ∧
    (∀ r : TopResource,
      getHostFromUrlPattern (e.topLevelUrlPattern.getD "") = none →
      (addEntryToResource r e).topLevelSites = r.topLevelSites ∧
      e ∈ (addEntryToResource r e).entries ∧
      ∀ bid ∈ e.bugIds.getD [], bid ∈ (addEntryToResource r e).bugIds) := by
  constructor
  · intro h
    have hmap : topResourcesMap (l1 ++ e :: l2) = topResourcesMap (l1 ++ l2) := by
      unfold topResourcesMap
      rw [List.foldl_append, List.foldl_append, List.foldl_cons,
        topResourcesStep_skip _ _ h]
    unfold topResources
    rw [hmap]
  · intro r htl
    unfold addEntryToResource
    rw [htl]
    refine ⟨rfl, ?_, ?_⟩
    · exact mem_insertNew.mpr (Or.inr rfl)
    · intro bid hbid
      exact mem_foldl_insertNew _ _ (Or.inr hbid)

/-- C8 counterexample: a record whose topLevelUrlPattern fails host
extraction still lands in the entries of a TopResource of the output,
refuting the claim that a record with a failing top-level pattern
contributes to no TopResource entry. -/
theorem c8_counterexample :
    hasTopLevelUrlPattern exSiteFail = true ∧
    getHostFromUrlPattern (exSiteFail.topLevelUrlPattern.getD "") = none ∧
    exSiteFail ∈ (topResources exTopEntries 2).flatMap
      TopResource.entries := by
  refine ⟨rfl, rfl, by decide⟩

/-- C8 witness: the amended theorem applied concretely — dropping the
record whose resource pattern has no host leaves the aggregation
unchanged. -/
theorem c8_host_extraction_failure_witness :
    topResources [exTop1, exSkipEntry, exTop2] 2
      = topResources [exTop1, exTop2] 2 :=
  (c8_host_extraction_failure [exTop1] [exTop2] exSkipEntry 2).1 rfl

/-! ## C5: the top-resource aggregation -/

lemma addEntryToResource_host (r : TopResource) (e : ExceptionListEntry) :
    (addEntryToResource r e).host = r.host := by
  unfold addEntryToResource
  cases getHostFromUrlPattern (e.topLevelUrlPattern.getD "") <;> rfl

lemma addEntryToResource_entries (r : TopResource)
    (e : ExceptionListEntry) :
    (addEntryToResource r e).entries = insertNew r.entries e := by
  unfold addEntryToResource
  cases getHostFromUrlPattern (e.topLevelUrlPattern.getD "") <;> rfl

lemma foldl_addEntryToResource_host (cs : List ExceptionListEntry) :
    ∀ r0 : TopResource, (cs.foldl addEntryToResource r0).host = r0.host := by
  induction cs with
  | nil => intro r0; rfl
  | cons c cs ih =>
    intro r0
    simp only [List.foldl_cons]
    rw [ih, addEntryToResource_host]

lemma aggregate_host (h : String) (cs : List ExceptionListEntry) :
    (aggregate h cs).host = h :=
  foldl_addEntryToResource_host cs (freshResource h)

lemma entryHost_eq_some {e : ExceptionListEntry} {h : String} :
    entryHost e = some h ↔
      hasTopLevelUrlPattern e = true ∧
      getHostFromUrlPattern e.urlPattern = some h := by
  unfold entryHost
  by_cases ht : hasTopLevelUrlPattern e <;> simp [ht]

lemma contributors_append_one (l : List ExceptionListEntry)
    (e : ExceptionListEntry) (h : String) :
    contributors (l ++ [e]) h
      = contributors l h
        ++ (if entryHost e = some h then [e] else []) := by
  unfold contributors
  rw [List.filter_append]
  congr 1
  by_cases he : entryHost e = some h <;> simp [he]

lemma aggregate_append_one (h : String) (cs : List ExceptionListEntry)
    (e : ExceptionListEntry) :
    aggregate h (cs ++ [e]) = addEntryToResource (aggregate h cs) e := by
  unfold aggregate
  rw [List.foldl_append]
  rfl

lemma updateResource_not_mem (m : List TopResource) (h : String)
    (e : ExceptionListEntry)
    (hnm : h ∉ m.map TopResource.host) :
    updateResource m h e
      = m ++ [addEntryToResource (freshResource h) e] := by
  induction m with
  | nil => rfl
  | cons r rs ih =>
    simp only [List.map_cons, List.mem_cons] at hnm
    push_neg at hnm
    have hr : ¬ r.host = h := fun hc => hnm.1 hc.symm
    rw [updateResource, if_neg hr, ih hnm.2]
    rfl

lemma updateResource_mem_split (m1 m2 : List TopResource)
    (r : TopResource) (h : String) (e : ExceptionListEntry)
    (hr : r.host = h) (hm1 : h ∉ m1.map TopResource.host) :
    updateResource (m1 ++ r :: m2) h e
      = m1 ++ addEntryToResource r e :: m2 := by
  induction m1 with
  | nil =>
    simp only [List.nil_append]
    rw [updateResource, if_pos hr]
  | cons a m1' ih =>
    simp only [List.map_cons, List.mem_cons] at hm1
    push_neg at hm1
    have ha : ¬ a.host = h := fun hc => hm1.1 hc.symm
    simp only [List.cons_append]
    rw [updateResource, if_neg ha, ih hm1.2]

lemma mem_entries_foldl (cs : List ExceptionListEntry) :
    ∀ (r0 : TopResource) (x : ExceptionListEntry),
      x ∈ (cs.foldl addEntryToResource r0).entries
        ↔ x ∈ r0.entries ∨ x ∈ cs := by
  induction cs with
  | nil => intro r0 x; simp
  | cons c cs ih =>
    intro r0 x
    simp only [List.foldl_cons]
    rw [ih, addEntryToResource_entries, mem_insertNew]
    simp only [List.mem_cons]
    tauto

lemma mem_entries_aggregate {h : String} {cs : List ExceptionListEntry}
    {x : ExceptionListEntry} :
    x ∈ (aggregate h cs).entries ↔ x ∈ cs := by
  unfold aggregate
  rw [mem_entries_foldl]
  simp [freshResource]

lemma insertNew_nodup {α : Type} [DecidableEq α] {l : List α} (x : α)
    (h : l.Nodup) : (insertNew l x).Nodup := by
  unfold insertNew
  by_cases hx : x ∈ l
  · rwa [if_pos hx]
  · rw [if_neg hx]
    simp [List.nodup_append, h, hx]

lemma topLevelSites_nodup_foldl (cs : List ExceptionListEntry) :
    ∀ r0 : TopResource, r0.topLevelSites.Nodup →
      ((cs.foldl addEntryToResource r0).topLevelSites).Nodup := by
  induction cs with
  | nil => intro r0 h; exact h
  | cons c cs ih =>
    intro r0 h
    simp only [List.foldl_cons]
    refine ih _ ?_
    unfold addEntryToResource
    cases getHostFromUrlPattern (c.topLevelUrlPattern.getD "") with
    | none => exact h
    | some site => exact insertNew_nodup site h

lemma aggregate_topLevelSites_nodup (h : String)
    (cs : List ExceptionListEntry) :
    ((aggregate h cs).topLevelSites).Nodup :=
  topLevelSites_nodup_foldl cs (freshResource h) (by simp [freshResource])

lemma MapInv_step (l : List ExceptionListEntry) (m : List TopResource)
    (e : ExceptionListEntry) (hinv : MapInv l m) :
    MapInv (l ++ [e]) (topResourcesStep m e) := by
  obtain ⟨hnd, hagg, hcomp⟩ := hinv
  cases heh : entryHost e with
  | none =>
    have hstep : topResourcesStep m e = m := by
      unfold entryHost at heh
      by_cases ht : hasTopLevelUrlPattern e
      · rw [if_pos ht] at heh
        simp [topResourcesStep, ht, heh]
      · simp [topResourcesStep, ht]
    have hc : ∀ h, contributors (l ++ [e]) h = contributors l h := by
      intro h
      rw [contributors_append_one,
        if_neg (by rw [heh]; exact fun hx => Option.noConfusion hx),
        List.append_nil]
    rw [hstep]
    refine ⟨hnd, ?_, ?_⟩
    · intro r hr
      rw [hc]
      exact hagg r hr
    · intro h hne
      rw [hc] at hne
      exact hcomp h hne
  | some h0 =>
    obtain ⟨ht, hurl⟩ := entryHost_eq_some.mp heh
    have hstep : topResourcesStep m e = updateResource m h0 e := by
      simp [topResourcesStep, ht, hurl]
    rw [hstep]
    have hcont : ∀ h, contributors (l ++ [e]) h
        = contributors l h ++ (if h = h0 then [e] else []) := by
      intro h
      rw [contributors_append_one]
      congr 1
      rw [heh]
      by_cases hh : h = h0
      · subst hh
        simp
      · have hne : ¬ ((some h0 : Option String) = some h) :=
          fun hx => hh (Option.some.inj hx).symm
        simp [hne, hh]
    by_cases hmem : h0 ∈ m.map TopResource.host
    · obtain ⟨r, hrm, hrh⟩ := List.mem_map.mp hmem
      obtain ⟨m1, m2, hsplit⟩ := List.append_of_mem hrm
      subst hsplit
      have hndm : ((m1.map TopResource.host)
          ++ r.host :: (m2.map TopResource.host)).Nodup := by
        simpa using hnd
      have hm1 : h0 ∉ m1.map TopResource.host := by
        intro hin
        have hdisj := (List.nodup_append.mp hndm).2.2
        exact hdisj hin (by rw [hrh]; exact List.mem_cons_self _ _)
      have hm2 : h0 ∉ m2.map TopResource.host := by
        have hcons := (List.nodup_append.mp hndm).2.1
        intro hin
        exact (List.nodup_cons.mp hcons).1 (hrh ▸ hin)
      rw [updateResource_mem_split m1 m2 r h0 e hrh hm1]
      have hrmem : r ∈ m1 ++ r :: m2 :=
        List.mem_append.mpr (Or.inr (List.mem_cons_self _ _))
      have haggr := (hagg r hrmem).2
      refine ⟨?_, ?_, ?_⟩
      · have hmap : (m1 ++ addEntryToResource r e :: m2).map TopResource.host
            = (m1 ++ r :: m2).map TopResource.host := by
          simp [addEntryToResource_host]
        rw [hmap]
        exact hnd
      · intro r' hr'
        rcases List.mem_append.mp hr' with h1 | h2
        · have hneq : r'.host ≠ h0 :=
            fun hc => hm1 (List.mem_map.mpr ⟨r', h1, hc⟩)
          rw [hcont r'.host, if_neg hneq, List.append_nil]
          exact hagg r' (List.mem_append.mpr (Or.inl h1))
        · rcases List.mem_cons.mp h2 with rfl | h3
          · constructor
            · rw [addEntryToResource_host, hrh, hcont h0, if_pos rfl]
              simp
            · rw [addEntryToResource_host, hrh, hcont h0, if_pos rfl,
                aggregate_append_one]
              have hr0 : aggregate h0 (contributors l h0) = r := by
                rw [← hrh]
                exact haggr.symm
              rw [hr0]
          · have hneq : r'.host ≠ h0 :=
              fun hc => hm2 (List.mem_map.mpr ⟨r', h3, hc⟩)
            rw [hcont r'.host, if_neg hneq, List.append_nil]
            exact hagg r'
              (List.mem_append.mpr (Or.inr (List.mem_cons.mpr (Or.inr h3))))
      · intro h hne
        rw [hcont h] at hne
        by_cases hh : h = h0
        · subst hh
          refine ⟨addEntryToResource r e, ?_, ?_⟩
          · exact List.mem_append.mpr (Or.inr (List.mem_cons_self _ _))
          · rw [addEntryToResource_host, hrh]
        · rw [if_neg hh, List.append_nil] at hne
          obtain ⟨r'', hrm'', hrh''⟩ := hcomp h hne
          rcases List.mem_append.mp hrm'' with h1 | h2
          · exact ⟨r'', List.mem_append.mpr (Or.inl h1), hrh''⟩
          · rcases List.mem_cons.mp h2 with rfl | h3
            · exact absurd (hrh''.symm.trans hrh) hh
            · exact ⟨r'', List.mem_append.mpr
                (Or.inr (List.mem_cons.mpr (Or.inr h3))), hrh''⟩
    · have hempty : contributors l h0 = [] := by
        by_contra hne
        obtain ⟨r, hrm, hrh⟩ := hcomp h0 hne
        exact hmem (List.mem_map.mpr ⟨r, hrm, hrh⟩)
      rw [updateResource_not_mem m h0 e hmem]
      refine ⟨?_, ?_, ?_⟩
      · rw [List.map_append]
        rw [List.nodup_append]
        refine ⟨hnd, ?_, ?_⟩
        · simp
        · intro a ha hb
          simp only [List.map_cons, List.map_nil, List.mem_singleton] at hb
          rw [addEntryToResource_host] at hb
          subst hb
          exact hmem ha
      · intro r' hr'
        rcases List.mem_append.mp hr' with h1 | h2
        · have hneq : r'.host ≠ h0 :=
            fun hc => hmem (List.mem_map.mpr ⟨r', h1, hc⟩)
          rw [hcont r'.host, if_neg hneq, List.append_nil]
          exact hagg r' h1
        · rw [List.mem_singleton] at h2
          subst h2
          constructor
          · rw [addEntryToResource_host,
              show (freshResource h0).host = h0 from rfl,
              hcont, if_pos rfl, hempty]
            simp
          · rw [addEntryToResource_host]
            show addEntryToResource (freshResource h0) e
              = aggregate (freshResource h0).host
                (contributors (l ++ [e]) (freshResource h0).host)
            rw [show (freshResource h0).host = h0 from rfl,
              hcont h0, if_pos rfl, hempty, List.nil_append]
            rfl
      · intro h hne
        rw [hcont h] at hne
        by_cases hh : h = h0
        · subst hh
          refine ⟨addEntryToResource (freshResource h) e, ?_, ?_⟩
          · exact List.mem_append.mpr
              (Or.inr (List.mem_singleton.mpr rfl))
          · rw [addEntryToResource_host]
            rfl
        · rw [if_neg hh, List.append_nil] at hne
          obtain ⟨r'', hrm'', hrh''⟩ := hcomp h hne
          exact ⟨r'', List.mem_append.mpr (Or.inl hrm''), hrh''⟩

lemma MapInv_topResourcesMap (l : List ExceptionListEntry) :
    MapInv l (topResourcesMap l) := by
  induction l using List.reverseRecOn with
  | nil =>
    refine ⟨List.nodup_nil, ?_, ?_⟩
    · intro r hr
      cases hr
    · intro h hc
      exact absurd rfl hc
  | append_singleton l e ih =>
    have hstep : topResourcesMap (l ++ [e])
        = topResourcesStep (topResourcesMap l) e := by
      unfold topResourcesMap
      rw [List.foldl_append]
      rfl
    rw [hstep]
    exact MapInv_step l _ e ih

/-- C5: characterization of the top-resource aggregation. The output has
pairwise distinct hosts (exactly one entry per resource host) and is sorted
in non-increasing order of distinct top-level-site count; a group is in the
output exactly when its host has at least one contributing record and its
distinct top-level-site count meets the minTopSiteCount threshold (default
2); every entry of an output group has a truthy (non-empty)
topLevelUrlPattern and a urlPattern whose host is the group's host (so
global exceptions contribute nowhere); the topLevelSites list of a group is
duplicate-free, so its length is the number of distinct top-level-site
hosts; and every input record whose urlPattern yields the host of an output
group lands in that group's entries. -/
theorem c5_topResources_characterization
    (records : List ExceptionListEntry) (minTopSiteCount : Nat) :
    ((topResources records minTopSiteCount).map TopResource.host).Nodup ∧
    (topResources records minTopSiteCount).Pairwise
      (fun a b => b.topLevelSites.length ≤ a.topLevelSites.length) ∧
    (∀ r, r ∈ topResources records minTopSiteCount ↔
      (contributors records r.host ≠ [] ∧
       r = aggregate r.host (contributors records r.host) ∧
       minTopSiteCount ≤ r.topLevelSites.length)) ∧
    (∀ r ∈ topResources records minTopSiteCount,
      r.topLevelSites.Nodup ∧
      ∀ e ∈ r.entries, hasTopLevelUrlPattern e = true ∧
        getHostFromUrlPattern e.urlPattern = some r.host) ∧
    (∀ e ∈ records, ∀ r ∈ topResources records minTopSiteCount,
      entryHost e = some r.host → e ∈ r.entries) := by
  obtain ⟨hnd, hagg, hcomp⟩ := MapInv_topResourcesMap records
  have hout : topResources records minTopSiteCount
      = sortDescBy (fun r => (r.topLevelSites.length : Int))
        ((topResourcesMap records).filter
          (fun r => decide (minTopSiteCount ≤ r.topLevelSites.length))) :=
    rfl
  have hperm : (topResources records minTopSiteCount).Perm
      ((topResourcesMap records).filter
        (fun r => decide (minTopSiteCount ≤ r.topLevelSites.length))) := by
    rw [hout]
    exact sortDescBy_perm _ _
  have hmem : ∀ r, r ∈ topResources records minTopSiteCount ↔
      (r ∈ topResourcesMap records ∧
        minTopSiteCount ≤ r.topLevelSites.length) := by
    intro r
    rw [hperm.mem_iff, List.mem_filter]
    simp
  have hchar : ∀ r, r ∈ topResources records minTopSiteCount →
      (contributors records r.host ≠ [] ∧
        r = aggregate r.host (contributors records r.host) ∧
        minTopSiteCount ≤ r.topLevelSites.length) := by
    intro r hr
    obtain ⟨hrm, hth⟩ := (hmem r).mp hr
    exact ⟨(hagg r hrm).1, (hagg r hrm).2, hth⟩
  refine ⟨?_, ?_, ?_, ?_, ?_⟩
  · have hsub : (((topResourcesMap records).filter
        (fun r => decide (minTopSiteCount ≤ r.topLevelSites.length))).map
          TopResource.host).Sublist
        ((topResourcesMap records).map TopResource.host) :=
      (List.filter_sublist _).map _
    have hndf := hnd.sublist hsub
    exact ((hperm.map TopResource.host).symm.nodup_iff).mp hndf
  · rw [hout]
    refine (sortDescBy_pairwise
      (fun r : TopResource => (r.topLevelSites.length : Int)) _).imp ?_
    intro a b hab
    exact_mod_cast hab
  · intro r
    constructor
    · exact hchar r
    · rintro ⟨hne, heq, hth⟩
      obtain ⟨r', hr'm, hr'h⟩ := hcomp r.host hne
      have : r' = r := by
        rw [(hagg r' hr'm).2, hr'h, ← heq]
      subst this
      exact (hmem r').mpr ⟨hr'm, hth⟩
  · intro r hr
    obtain ⟨hne, heq, hth⟩ := hchar r hr
    constructor
    · rw [heq]
      exact aggregate_topLevelSites_nodup _ _
    · intro e he
      rw [heq] at he
      have hec : e ∈ contributors records r.host :=
        mem_entries_aggregate.mp he
      have := List.mem_filter.mp hec
      have heh : entryHost e = some r.host := of_decide_eq_true this.2
      exact entryHost_eq_some.mp heh
  · intro e hrec r hr heh
    obtain ⟨hne, heq, hth⟩ := hchar r hr
    rw [heq]
    refine mem_entries_aggregate.mpr ?_
    exact List.mem_filter.mpr ⟨hrec, decide_eq_true heh⟩

/-- C5 witness: the spec §8 example — two per-site entries for the resource
host tracker.example under two distinct top-level sites put exactly that
aggregate in the output at the default threshold 2. -/
theorem c5_topResources_characterization_witness :
    exTrackerResource ∈ topResources exTopEntries 2 :=
  ((c5_topResources_characterization exTopEntries 2).2.2.1
    exTrackerResource).mpr ⟨by decide, by decide, by decide⟩

end UCE
